import Mathlib

/-!
Verification development for the usfx procedural-audio engine.

The engine is shallowly embedded: every Rust function of the signal pipeline
(`src/oscillator.rs`, `src/envelope.rs`, `src/effects/distortion.rs`,
`src/lib.rs`) is translated into an executable Lean definition.  The scalar
type of the source is `f32`; it is modelled by `F32` below, a rational number
extended with the IEEE-754 special values `+inf`, `-inf` and `nan`.  Finite
arithmetic is exact rational arithmetic (the usual idealisation that ignores
rounding), while the special values follow the IEEE-754 rules the source
relies on (`1.0 / 0.0 = +inf`, `0.0 * inf = nan`, every comparison with `nan`
is false, Rust `f32::signum(+0.0) = 1.0`, Rust `f32::max` ignores a `nan`
argument).  The two signed zeros of IEEE-754 are collapsed into the single
rational `0`; the source never produces a negative zero on the paths studied
here (all literals and parameters are non-negative or plain `0.0`).

Transcendental operations have no rational definition, so they enter as
explicit function parameters: `sin_f` models Rust `f32::sin` and `pf` models
Rust `f32::powf`.  The pseudo-random stream of the external `randomize` crate
(used only to fill the Noise table) is modelled as an arbitrary `ℕ → ℕ`
stream parameter, and its output mapping `f32_closed_neg_pos` is modelled
from the spec as a map onto the closed interval `[-1, 1]`.

Rust code that can panic is translated to `Option`-returning definitions:
`Oscillator.generate?` returns `none` exactly when the source would panic
(`%` by a zero `sample_rate`, or slicing the table past its length).
-/

namespace Usfx

/-- Model of the Rust `f32` scalar: exact rationals plus the IEEE-754 special
values actually exercised by the source. -/
inductive F32 where
  | nan : F32
  | inf : F32
  | ninf : F32
  | fin : ℚ → F32
deriving DecidableEq

namespace F32

/-- Cast of a Rust `usize` to `f32` (`n as f32`), idealised as exact. -/
def ofNat (n : ℕ) : F32 := fin (n : ℚ)

/-- IEEE-754 addition (used by the oscillator accumulation `*old += *new`). -/
def add : F32 → F32 → F32
  | nan, _ => nan
  | _, nan => nan
  | inf, ninf => nan
  | ninf, inf => nan
  | inf, _ => inf
  | _, inf => inf
  | ninf, _ => ninf
  | _, ninf => ninf
  | fin a, fin b => fin (a + b)

/-- IEEE-754 subtraction. -/
def sub : F32 → F32 → F32
  | nan, _ => nan
  | _, nan => nan
  | inf, inf => nan
  | ninf, ninf => nan
  | inf, _ => inf
  | _, inf => ninf
  | ninf, _ => ninf
  | _, ninf => inf
  | fin a, fin b => fin (a - b)

/-- IEEE-754 multiplication; note `0 * ±inf = nan`. -/
def mul : F32 → F32 → F32
  | nan, _ => nan
  | _, nan => nan
  | inf, inf => inf
  | inf, ninf => ninf
  | ninf, inf => ninf
  | ninf, ninf => inf
  | inf, fin b => if b < 0 then ninf else if b = 0 then nan else inf
  | fin a, inf => if a < 0 then ninf else if a = 0 then nan else inf
  | ninf, fin b => if b < 0 then inf else if b = 0 then nan else ninf
  | fin a, ninf => if a < 0 then inf else if a = 0 then nan else ninf
  | fin a, fin b => fin (a * b)

/-- IEEE-754 division; the model's single `0` is `+0`, so `a / 0 = +inf` for
`a > 0` (this is how the source's `1.0 / attack` behaves at `attack = 0`). -/
def div : F32 → F32 → F32
  | nan, _ => nan
  | _, nan => nan
  | inf, inf => nan
  | inf, ninf => nan
  | ninf, inf => nan
  | ninf, ninf => nan
  | inf, fin b => if b < 0 then ninf else inf
  | ninf, fin b => if b < 0 then inf else ninf
  | fin _, inf => fin 0
  | fin _, ninf => fin 0
  | fin a, fin b =>
    if b = 0 then (if a = 0 then nan else if a < 0 then ninf else inf)
    else fin (a / b)

/-- IEEE-754 `≤` as a boolean: any comparison involving `nan` is false. -/
def le : F32 → F32 → Bool
  | nan, _ => false
  | _, nan => false
  | ninf, _ => true
  | _, inf => true
  | inf, _ => false
  | fin _, ninf => false
  | fin a, fin b => decide (a ≤ b)

/-- IEEE-754 `<` as a boolean: any comparison involving `nan` is false. -/
def lt : F32 → F32 → Bool
  | nan, _ => false
  | _, nan => false
  | ninf, ninf => false
  | ninf, _ => true
  | inf, _ => false
  | fin _, inf => true
  | fin _, ninf => false
  | fin a, fin b => decide (a < b)

/-- IEEE-754 `≥`, as used by the source's `multiplier >= 1.0`. -/
def ge (a b : F32) : Bool := le b a

/-- IEEE-754 `!=`: true whenever either operand is `nan`, otherwise negated
equality.  Used by the source's `self.volume != 1.0` guard. -/
def fne : F32 → F32 → Bool
  | nan, _ => true
  | _, nan => true
  | inf, inf => false
  | ninf, ninf => false
  | fin a, fin b => decide (a ≠ b)
  | _, _ => true

/-- Rust `f32::max`: returns the other operand when one is `nan`. -/
def fmax : F32 → F32 → F32
  | nan, b => b
  | a, nan => a
  | inf, _ => inf
  | _, inf => inf
  | ninf, b => b
  | a, ninf => a
  | fin a, fin b => fin (max a b)

/-- Rust `f32::signum`: `nan` for `nan`, `1` for non-negative values (the
model's `0` is `+0.0`), `-1` for negative values. -/
def signum : F32 → F32
  | nan => nan
  | inf => fin 1
  | ninf => fin (-1)
  | fin a => if a < 0 then fin (-1) else fin 1

/-- Truncation toward zero of a rational, as performed by the Rust float
remainder operator. -/
def ratTrunc (q : ℚ) : ℤ := if q < 0 then ⌈q⌉ else ⌊q⌋

/-- Rust `x % 1.0` on `f32`: `nan` for non-finite dividends, otherwise
`x - trunc(x)` (which agrees with the fractional part for the non-negative
dividends produced by the table builders). -/
def fmod1 : F32 → F32
  | fin a => fin (a - ratTrunc a)
  | _ => nan

end F32

/-- Possible values for the duty cycle of the square wave
(`src/oscillator.rs`). -/
inductive DutyCycle where
  | Eight : DutyCycle
  | Quarter : DutyCycle
  | Third : DutyCycle
  | Half : DutyCycle
deriving DecidableEq

/-- Convert a duty cycle to the fraction the source compares with. -/
def DutyCycle.to_frac : DutyCycle → ℚ
  | .Eight => 125 / 1000
  | .Quarter => 25 / 100
  | .Third => 33 / 100
  | .Half => 5 / 10

/-- Wave form generation type (`src/oscillator.rs`). -/
inductive OscillatorType where
  | Sine : OscillatorType
  | Saw : OscillatorType
  | Triangle : OscillatorType
  | Square : OscillatorType
  | Noise : OscillatorType
deriving DecidableEq

/-- The exact rational value of the `f32` constant `PI2 = PI * 2.0` used by
the sine table builder (`std::f32::consts::PI` has bit pattern `0x40490FDB`,
i.e. `13176795 / 4194304`; doubling is exact in `f32`). -/
def PI2 : ℚ := 13176795 / 2097152

/-- Modelled from the spec: `randomize::formulas::f32_closed_neg_pos`, the
external crate's map from a `u32` onto the closed interval `[-1, 1]`.  The
argument is reduced modulo `2^32` to model the `u32` domain. -/
def f32_closed_neg_pos (u : ℕ) : ℚ :=
  ((u % 4294967296 : ℕ) : ℚ) * 2 / 4294967295 - 1

/-- Build a lookup table from this type (`OscillatorType::build_lut`).
The table is twice the size of the sample rate.  `sin_f` models `f32::sin`;
`rng` models the successive outputs of the external `randomize::PCG32`
stream seeded from the frequency (`PCG32::seed(frequency as u64, 5)` followed
by repeated `next_u32`), which this embedding leaves abstract. -/
def OscillatorType.build_lut (sin_f : F32 → F32) (rng : ℕ → ℕ)
    (t : OscillatorType) (frequency : ℕ) (duty_cycle : DutyCycle)
    (sample_rate : ℕ) : List F32 :=
  let buffer_size := sample_rate * 2
  match t with
  | .Sine =>
    let mult := F32.div (F32.mul (F32.ofNat frequency) (F32.fin PI2))
      (F32.ofNat sample_rate)
    (List.range buffer_size).map (fun index => sin_f (F32.mul (F32.ofNat index) mult))
  | .Saw =>
    (List.range buffer_size).map (fun index =>
      F32.sub (F32.fin 1)
        (F32.mul
          (F32.fmod1 (F32.mul (F32.div (F32.ofNat index) (F32.ofNat sample_rate))
            (F32.ofNat frequency)))
          (F32.fin 2)))
  | .Triangle =>
    (List.range buffer_size).map (fun index =>
      let slope := F32.mul
        (F32.fmod1 (F32.mul (F32.div (F32.ofNat index) (F32.ofNat sample_rate))
          (F32.ofNat frequency)))
        (F32.fin 2)
      if F32.lt slope (F32.fin 1) then
        F32.add (F32.fin (-1)) (F32.mul slope (F32.fin 2))
      else
        F32.sub (F32.fin 3) (F32.mul slope (F32.fin 2)))
  | .Square =>
    (List.range buffer_size).map (fun index =>
      if F32.lt
          (F32.fmod1 (F32.mul (F32.div (F32.ofNat index) (F32.ofNat sample_rate))
            (F32.ofNat frequency)))
          (F32.fin duty_cycle.to_frac) then
        F32.fin 1
      else
        F32.fin (-1))
  | .Noise =>
    (List.range buffer_size).map (fun index => F32.fin (f32_closed_neg_pos (rng index)))

/-- Elementwise in-place accumulation
`output.iter_mut().zip(slice.iter()).for_each(|(old, new)| *old += *new)`:
the zip stops at the shorter list, and positions of `output` past the end of
`slice` are left unchanged. -/
def addInto : List F32 → List F32 → List F32
  | [], _ => []
  | out, [] => out
  | o :: os, x :: xs => F32.add o x :: addInto os xs

/-- The oscillator: a shared lookup table plus the wrap length
(`src/oscillator.rs`).  The source stores the table in a `RefCell` purely to
share it; it is never mutated after construction, so the embedding holds the
table directly. -/
structure Oscillator where
  lut : List F32
  sample_rate : ℕ
deriving DecidableEq

/-- Instantiate a new oscillator that uses the passed lookup table. -/
def Oscillator.new (lut : List F32) (sample_rate : ℕ) : Oscillator :=
  { lut := lut, sample_rate := sample_rate }

/-- Fill the output buffer with generated sound (`Oscillator::generate`).
Returns `none` exactly where the Rust code panics: `offset % sample_rate`
with `sample_rate = 0`, or slicing `lut[rotating_index..]` with
`rotating_index > lut.len()`. -/
def Oscillator.generate? (osc : Oscillator) (output : List F32) (offset : ℕ) :
    Option (List F32) :=
  if osc.sample_rate = 0 then none
  else
    let rotating_index := offset % osc.sample_rate
    if rotating_index ≤ osc.lut.length then
      some (addInto output (osc.lut.drop rotating_index))
    else none

/-- The current state of the ADSR (`src/envelope.rs`); `Decay` and `Release`
carry the absolute sample index at which the phase began. -/
inductive State where
  | Attack : State
  | Decay : ℕ → State
  | Release : ℕ → State
  | Done : State
deriving DecidableEq

/-- A default ADSR envelope (`src/envelope.rs`). -/
structure Envelope where
  attack_slope : F32
  decay_slope : F32
  sustain_height : F32
  release_slope : F32
  state : State
deriving DecidableEq

/-- Instantiate a new envelope generator (`Envelope::new`); the slope
expressions are the source's chained `f32` divisions. -/
def Envelope.new (sample_rate attack decay sustain release : F32) : Envelope :=
  { attack_slope := F32.div (F32.div (F32.fin 1) attack) sample_rate
    decay_slope := F32.div (F32.div (F32.div (F32.fin 1) decay) sustain) sample_rate
    sustain_height := sustain
    release_slope := F32.div (F32.div (F32.div (F32.fin 1) release) sustain) sample_rate
    state := State.Attack }

/-- The body of the per-sample loop of `Envelope::apply`: given the current
state, the absolute sample index `i` (`index + offset` in the source) and the
sample, returns the shaped sample and the next state.  The source's `usize`
subtraction `index_with_offset - last_offset` is `ℕ` subtraction; the
generator only ever calls `apply` with non-decreasing offsets, so the
source's debug-mode underflow panic is unreachable on those paths. -/
def Envelope.stepSample (e : Envelope) (st : State) (i : ℕ) (tone : F32) :
    F32 × State :=
  match st with
  | .Attack =>
    let multiplier := F32.mul (F32.ofNat i) e.attack_slope
    (F32.mul tone multiplier,
      if F32.ge multiplier (F32.fin 1) then State.Decay i else State.Attack)
  | .Decay last_offset =>
    let multiplier := F32.sub (F32.fin 1)
      (F32.mul (F32.ofNat (i - last_offset)) e.decay_slope)
    (F32.mul tone multiplier,
      if F32.le multiplier e.sustain_height then State.Release i
      else State.Decay last_offset)
  | .Release last_offset =>
    let multiplier := F32.sub e.sustain_height
      (F32.mul (F32.ofNat (i - last_offset)) e.release_slope)
    (F32.mul tone multiplier,
      if F32.le multiplier (F32.fin 0) then State.Done
      else State.Release last_offset)
  | .Done => (F32.fin 0, State.Done)

/-- The enumerated fold of `Envelope::apply` over the buffer, threading the
state and the absolute index. -/
def Envelope.applyGo (e : Envelope) : State → ℕ → List F32 → List F32 × State
  | st, _, [] => ([], st)
  | st, i, t :: ts =>
    let s := e.stepSample st i t
    let r := e.applyGo s.2 (i + 1) ts
    (s.1 :: r.1, r.2)

/-- Apply the envelope on a buffer (`Envelope::apply`): shapes every sample
starting from absolute index `offset` and returns the shaped buffer together
with the resulting state (the source mutates the buffer in place and returns
the state). -/
def Envelope.apply (e : Envelope) (buffer : List F32) (offset : ℕ) :
    List F32 × State :=
  e.applyGo e.state offset buffer

/-- A simple distortion effect (`src/effects/distortion.rs`); the `crunch`
field stores the exponent `1.0 - max(crunch, 0.01)` computed by the
constructor. -/
structure Distortion where
  crunch : F32
  drive : F32
deriving DecidableEq

/-- Setup the effect (`Distortion::new`). -/
def Distortion.new (crunch drive : F32) : Distortion :=
  { crunch := F32.sub (F32.fin 1) (F32.fmax crunch (F32.fin (1/100)))
    drive := drive }

/-- Apply the effect on the buffer (`Distortion::apply` of the `Effect`
trait); `pf` models `f32::powf` and `_offset` is the ignored trait
parameter. -/
def Distortion.apply (pf : F32 → F32 → F32) (d : Distortion)
    (buffer : List F32) (_offset : ℕ) : List F32 :=
  buffer.map (fun tone =>
    let x := F32.mul tone d.drive
    let sign := F32.signum x
    F32.mul (pf (F32.mul x sign) d.crunch) sign)

/-- Concrete stand-in for `f32::powf` used by the closed evaluation theorems
below.  On the only base they reach, `+0.0`, it follows IEEE-754 `pow`:
`0 ^ 0 = 1` and `0 ^ e = 0` for `e > 0`; every other input is passed
through unchanged (those inputs are never evaluated by the theorems). -/
def powfModel : F32 → F32 → F32 :=
  fun x e =>
    match x, e with
    | F32.fin a, F32.fin b =>
      if a = 0 then (if b = 0 then F32.fin 1 else if 0 < b then F32.fin 0 else F32.inf)
      else F32.fin a
    | _, _ => x

/-- Audio sample parameters (`Sample` in `src/lib.rs`).  The
`osc_duty_cycle` field is the one documented by `src/oscillator.rs`
(`OscillatorType::Square` "uses osc_duty_cycle from Sample"); the `lib.rs`
revision in the sources predates it and never passes a duty cycle. -/
structure Sample where
  volume : ℚ
  osc_frequency : ℕ
  osc_type : OscillatorType
  osc_duty_cycle : DutyCycle
  env_attack : ℚ
  env_decay : ℚ
  env_release : ℚ
  env_sustain : ℚ
  dis_crunch : Option ℚ
  dis_drive : Option ℚ
deriving DecidableEq

/-- The default `Sample`: a sine wave of 441 Hz. -/
def Sample.default : Sample :=
  { volume := 1
    osc_frequency := 441
    osc_type := OscillatorType.Sine
    osc_duty_cycle := DutyCycle.Half
    env_attack := 1/100
    env_decay := 1/10
    env_sustain := 5/10
    env_release := 5/10
    dis_crunch := none
    dis_drive := none }

/-- One playing voice (`Generator` in `src/lib.rs`). -/
structure Generator where
  finished : Bool
  offset : ℕ
  volume : F32
  oscillator : Oscillator
  envelope : Envelope
  distortion : Option Distortion
deriving DecidableEq

/-- Generate the sound for the sample (`Generator::run`): run the oscillator
into the buffer, apply the ADSR (recording `finished` when it reports
`Done`), apply the optional distortion, apply the volume when it differs from
`1.0`, and advance the running offset by the buffer length.  Returns `none`
exactly when the oscillator read panics in the source. -/
def Generator.run (pf : F32 → F32 → F32) (g : Generator) (output : List F32) :
    Option (Generator × List F32) :=
  match g.oscillator.generate? output g.offset with
  | none => none
  | some out1 =>
    let applied := g.envelope.apply out1 g.offset
    let finished := if applied.2 = State.Done then true else g.finished
    let out3 :=
      match g.distortion with
      | some d => d.apply pf applied.1 g.offset
      | none => applied.1
    let out4 :=
      if F32.fne g.volume (F32.fin 1) then
        out3.map (fun tone => F32.mul tone g.volume)
      else out3
    some ({ g with
        envelope := { g.envelope with state := applied.2 }
        finished := finished
        offset := g.offset + out4.length }, out4)

/-- Manage samples and mix the volume output of each (`Mixer` in
`src/lib.rs`).  The `HashMap` cache is modelled as an association list (only
`get` and `insert` are used, so iteration order is irrelevant). -/
structure Mixer where
  generators : List Generator
  sample_rate : ℕ
  oscillator_lookup : List ((ℕ × OscillatorType) × List F32)
deriving DecidableEq

/-- Association-list lookup standing in for `HashMap::get`. -/
def lookupTable : List ((ℕ × OscillatorType) × List F32) → (ℕ × OscillatorType) →
    Option (List F32)
  | [], _ => none
  | (k, v) :: rest, key => if k = key then some v else lookupTable rest key

/-- The default mixer: sample rate 44100, no voices, empty cache. -/
def Mixer.default : Mixer :=
  { generators := [], sample_rate := 44100, oscillator_lookup := [] }

/-- Create a new mixer object (`Mixer::new`). -/
def Mixer.new (sample_rate : ℕ) : Mixer :=
  { Mixer.default with sample_rate := sample_rate }

/-- Retrieve an oscillator buffer or create it when it doesn't exist yet
(`Mixer::oscillator_buffer`).  The cache key is the pair
`(frequency, oscillator_type)` exactly as in the source's
`HashMap<(usize, OscillatorType), RefCell<Vec<f32>>>`; the duty cycle is the
`build_lut` parameter of `src/oscillator.rs` and is not part of the key. -/
def Mixer.oscillator_buffer (sin_f : F32 → F32) (rng : ℕ → ℕ) (m : Mixer)
    (frequency : ℕ) (oscillator_type : OscillatorType)
    (duty_cycle : DutyCycle) : List F32 × Mixer :=
  match lookupTable m.oscillator_lookup (frequency, oscillator_type) with
  | some buffer => (buffer, m)
  | none =>
    let lut := oscillator_type.build_lut sin_f rng frequency duty_cycle m.sample_rate
    (lut, { m with
      oscillator_lookup := ((frequency, oscillator_type), lut) :: m.oscillator_lookup })

/-- Play a sample (`Mixer::play`): build the envelope, resolve the (possibly
cached) wavetable, build the oscillator and the optional distortion, and push
the resulting generator onto the pool. -/
def Mixer.play (sin_f : F32 → F32) (rng : ℕ → ℕ) (m : Mixer) (sample : Sample) :
    Mixer :=
  let envelope := Envelope.new (F32.ofNat m.sample_rate)
    (F32.fin sample.env_attack) (F32.fin sample.env_decay)
    (F32.fin sample.env_sustain) (F32.fin sample.env_release)
  let resolved := m.oscillator_buffer sin_f rng sample.osc_frequency
    sample.osc_type sample.osc_duty_cycle
  let oscillator := Oscillator.new resolved.1 m.sample_rate
  let distortion :=
    match sample.dis_crunch, sample.dis_drive with
    | some crunch, some drive => some (Distortion.new (F32.fin crunch) (F32.fin drive))
    | some crunch, none => some (Distortion.new (F32.fin crunch) (F32.fin 1))
    | none, some drive => some (Distortion.new (F32.fin 0) (F32.fin drive))
    | none, none => none
  let generator : Generator :=
    { finished := false
      offset := 0
      volume := F32.fin sample.volume
      oscillator := oscillator
      envelope := envelope
      distortion := distortion }
  { resolved.2 with generators := resolved.2.generators ++ [generator] }

/-- Run every generator in order on the shared buffer, each one reading and
rewriting the samples left by its predecessors (the `for_each` over
`self.generators` in `Mixer::generate`). -/
def runVoices (pf : F32 → F32 → F32) :
    List Generator → List F32 → Option (List Generator × List F32)
  | [], buf => some ([], buf)
  | g :: gs, buf =>
    match Generator.run pf g buf with
    | none => none
    | some (g', buf') =>
      match runVoices pf gs buf' with
      | none => none
      | some (gs', buf'') => some (g' :: gs', buf'')

/-- Generate a frame for the sample (`Mixer::generate`): zero the output
buffer, return it if there are no generators, otherwise run every generator
on the shared buffer, drop the finished ones, and scale every sample by the
inverse of the pre-removal generator count. -/
def Mixer.generate (pf : F32 → F32 → F32) (m : Mixer) (output : List F32) :
    Option (Mixer × List F32) :=
  let zeroed := output.map (fun _ => F32.fin 0)
  let generators_len := m.generators.length
  if generators_len = 0 then some (m, zeroed)
  else
    match runVoices pf m.generators zeroed with
    | none => none
    | some (gens, buf) =>
      let kept := gens.filter (fun g => ! g.finished)
      let buffer_len_inv := F32.div (F32.fin 1) (F32.ofNat generators_len)
      some ({ m with generators := kept },
        buf.map (fun tone => F32.mul tone buffer_len_inv))

/-- Numeric rank of an envelope phase in the source's intended order
Attack → Decay → Release → Done. -/
def rank : State → ℕ
  | .Attack => 0
  | .Decay _ => 1
  | .Release _ => 2
  | .Done => 3

/-- One admissible per-sample transition of the envelope state machine:
either stay in the same phase (with the same recorded start offset) or move
to the immediately following phase. -/
def advanceOk : State → State → Bool
  | .Attack, .Attack => true
  | .Attack, .Decay _ => true
  | .Decay a, .Decay b => decide (a = b)
  | .Decay _, .Release _ => true
  | .Release a, .Release b => decide (a = b)
  | .Release _, .Done => true
  | .Done, .Done => true
  | _, _ => false

/-- Trivial model of `f32::sin` used by the closed evaluation theorems; the
sine branch of `build_lut` is never exercised by them. -/
def sinZero : F32 → F32 := fun _ => F32.fin 0

/-- Trivial model of the random stream used by the closed evaluation
theorems; the noise branch of `build_lut` is never exercised by them. -/
def rngZero : ℕ → ℕ := fun _ => 0

/-- The saw wavetable at frequency 1 and sample rate 4, used by the phase
continuity counterexample (its entries are `[1, 1/2, 0, -1/2]` twice). -/
def sawLut4 : List F32 :=
  OscillatorType.build_lut sinZero rngZero OscillatorType.Saw 1 DutyCycle.Half 4

/-- A mixer with sample rate 8 and empty pool and cache, used by the
cache-key evaluation. -/
def mixer8 : Mixer :=
  { generators := [], sample_rate := 8, oscillator_lookup := [] }

/-- A saw voice at frequency 1 with volume 1/2 and a one-sample attack at
sample rate 4, used by the shared-buffer evaluation. -/
def sampleShared : Sample :=
  { volume := 1/2
    osc_frequency := 1
    osc_type := OscillatorType.Saw
    osc_duty_cycle := DutyCycle.Half
    env_attack := 1/4
    env_decay := 1
    env_sustain := 1/2
    env_release := 1
    dis_crunch := none
    dis_drive := none }

/-- A sample-rate-4 mixer with one `sampleShared` voice enqueued. -/
def mixerOne : Mixer := (Mixer.new 4).play sinZero rngZero sampleShared

/-- A sample-rate-4 mixer with two identical `sampleShared` voices enqueued
simultaneously. -/
def mixerTwo : Mixer := mixerOne.play sinZero rngZero sampleShared

/-- A generator over a two-entry zero table with wrap length 1, used as the
concrete input of witnesses. -/
def generatorW : Generator :=
  { finished := false
    offset := 0
    volume := F32.fin 1
    oscillator := { lut := [F32.fin 0, F32.fin 0], sample_rate := 1 }
    envelope :=
      { attack_slope := F32.fin 1, decay_slope := F32.fin 1
        sustain_height := F32.fin 1, release_slope := F32.fin 1
        state := State.Attack }
    distortion := none }

/-! Helper lemmas about the embedding. -/

theorem addInto_nil_right (out : List F32) : addInto out [] = out := by
  cases out <;> rfl

theorem length_addInto (out l : List F32) : (addInto out l).length = out.length := by
  induction out generalizing l with
  | nil => cases l <;> rfl
  | cons o os ih =>
    cases l with
    | nil => rfl
    | cons x xs => simp [addInto, ih]

theorem addInto_append (a b l : List F32) :
    addInto (a ++ b) l = addInto a l ++ addInto b (l.drop a.length) := by
  induction a generalizing l with
  | nil => simp [addInto]
  | cons o os ih =>
    cases l with
    | nil => simp [addInto, addInto_nil_right]
    | cons x xs => simp [addInto, ih]

theorem addInto_take (out l : List F32) : addInto out (l.take out.length) = addInto out l := by
  induction out generalizing l with
  | nil => cases l <;> rfl
  | cons o os ih =>
    cases l with
    | nil => rfl
    | cons x xs => simp [addInto, ih]

theorem take_congr (n : ℕ) (l1 l2 : List F32)
    (h : ∀ j, j < n → l1[j]? = l2[j]?) : l1.take n = l2.take n := by
  induction n generalizing l1 l2 with
  | zero => simp
  | succ m ih =>
    cases l1 with
    | nil =>
      cases l2 with
      | nil => rfl
      | cons y ys => have h0 := h 0 (Nat.succ_pos _); simp at h0
    | cons x xs =>
      cases l2 with
      | nil => have h0 := h 0 (Nat.succ_pos _); simp at h0
      | cons y ys =>
        have h0 := h 0 (Nat.succ_pos _)
        simp only [List.getElem?_cons_zero, Option.some.injEq] at h0
        simp only [List.take_succ_cons, h0]
        exact congrArg _ (ih xs ys (fun j hj => by
          have hj' := h (j + 1) (by omega)
          simpa using hj'))

theorem addInto_congr (out l1 l2 : List F32)
    (h : ∀ j, j < out.length → l1[j]? = l2[j]?) : addInto out l1 = addInto out l2 := by
  rw [← addInto_take out l1, ← addInto_take out l2, take_congr out.length l1 l2 h]

theorem addInto_getElem?_both (out l : List F32) (i : ℕ) (a b : F32)
    (ha : out[i]? = some a) (hb : l[i]? = some b) :
    (addInto out l)[i]? = some (F32.add a b) := by
  induction out generalizing l i with
  | nil => simp at ha
  | cons o os ih =>
    cases l with
    | nil => simp at hb
    | cons x xs =>
      cases i with
      | zero =>
        simp at ha hb
        simp [addInto, ha, hb]
      | succ j =>
        simp at ha hb
        simpa [addInto] using ih xs j ha hb

theorem addInto_getElem?_right_none (out l : List F32) (i : ℕ)
    (hb : l[i]? = none) : (addInto out l)[i]? = out[i]? := by
  induction out generalizing l i with
  | nil => simp [addInto]
  | cons o os ih =>
    cases l with
    | nil => simp [addInto]
    | cons x xs =>
      cases i with
      | zero => simp at hb
      | succ j =>
        simp only [List.getElem?_cons_succ] at hb
        simpa [addInto] using ih xs j hb

theorem Oscillator.generate?_eq (osc : Oscillator) (out : List F32) (offset : ℕ)
    (h0 : osc.sample_rate ≠ 0) (h1 : offset % osc.sample_rate ≤ osc.lut.length) :
    osc.generate? out offset =
      some (addInto out (osc.lut.drop (offset % osc.sample_rate))) := by
  simp [Oscillator.generate?, h0, h1]

/-- C10: for every absolute offset and output-buffer length (including
lengths beyond the sample rate), the oscillator read never leaves the table:
the start index `offset % sample_rate` is below the table length
`2 * sample_rate`, the generate call never hits a panicking path (it returns
`some`), positions covered by the remaining table slice receive exactly one
accumulated table value, and positions beyond the slice are left unchanged. -/
theorem c10_oscillator_read_safety (lut : List F32) (sr offset : ℕ) (out : List F32)
    (hsr : 0 < sr) (hlen : lut.length = 2 * sr) :
    offset % sr < lut.length ∧
    Oscillator.generate? (Oscillator.new lut sr) out offset =
      some (addInto out (lut.drop (offset % sr))) ∧
    (∀ i a b, out[i]? = some a → lut[offset % sr + i]? = some b →
      (addInto out (lut.drop (offset % sr)))[i]? = some (F32.add a b)) ∧
    (∀ i, lut.length - offset % sr ≤ i →
      (addInto out (lut.drop (offset % sr)))[i]? = out[i]?) := by
  have hmod : offset % sr < sr := Nat.mod_lt _ hsr
  have hlt : offset % sr < lut.length := by omega
  refine ⟨hlt, ?_, ?_, ?_⟩
  · have h0 : (Oscillator.new lut sr).sample_rate ≠ 0 := by
      simp only [Oscillator.new]
      omega
    have h1 : offset % (Oscillator.new lut sr).sample_rate ≤ (Oscillator.new lut sr).lut.length := by
      simp only [Oscillator.new]
      omega
    exact Oscillator.generate?_eq (Oscillator.new lut sr) out offset h0 h1
  · intro i a b ha hb
    refine addInto_getElem?_both out _ i a b ha ?_
    rw [List.getElem?_drop]
    exact hb
  · intro i hi
    refine addInto_getElem?_right_none out _ i ?_
    rw [List.getElem?_drop]
    exact List.getElem?_eq_none (by omega)

/-- Witness for C10 at a concrete input: wrap length 1, table `[0, 0]`,
offset 5 and a three-sample buffer (longer than the remaining table slice);
the call succeeds and leaves the uncovered tail unchanged. -/
theorem c10_oscillator_read_safety_witness :
    Oscillator.generate? (Oscillator.new [F32.fin 0, F32.fin 0] 1)
        [F32.fin 1, F32.fin 2, F32.fin 3] 5 =
      some (addInto [F32.fin 1, F32.fin 2, F32.fin 3]
        ([F32.fin 0, F32.fin 0].drop (5 % 1))) :=
  (c10_oscillator_read_safety [F32.fin 0, F32.fin 0] 1 5
    [F32.fin 1, F32.fin 2, F32.fin 3] (by norm_num) (by norm_num)).2.1

/-- C5 counterexample: splitting invariance fails as universally stated.
Saw table at frequency 1 and sample rate 4 (eight entries), offset 0,
`N = 8`, `M = 1`: the joined 9-sample render exhausts the table and leaves
the ninth sample unchanged at `0`, while the split render wraps the second
call's start index back to `0` and contributes the table head `1`. -/
theorem c5_split_invariance_counterexample :
    Oscillator.generate? (Oscillator.new sawLut4 4) (List.replicate 9 (F32.fin 0)) 0 ≠
      (Oscillator.generate? (Oscillator.new sawLut4 4) (List.replicate 8 (F32.fin 0)) 0).bind
        (fun first =>
          (Oscillator.generate? (Oscillator.new sawLut4 4) (List.replicate 1 (F32.fin 0))
              (0 + (List.replicate 8 (F32.fin 0)).length)).map
            (fun second => first ++ second)) := by
  norm_num [sawLut4, OscillatorType.build_lut, sinZero, rngZero, Oscillator.new,
    Oscillator.generate?, addInto, List.replicate, List.range_succ,
    F32.mul, F32.div, F32.add, F32.sub, F32.ofNat, F32.fmod1, F32.ratTrunc]

/-- C5 amended: rendering `N` samples and then `M` samples from the continued
offset agrees with a single `N + M`-sample render, provided the table is
periodic with period `sample_rate` (true of the ideal periodic waveforms but
not guaranteed by the source for floating-point tables, and false for Noise
tables) and the joined render does not run past the end of the table
(`offset % sample_rate + N + M ≤ 2 * sample_rate`). -/
theorem c5_split_invariance_amended (lut : List F32) (sr o : ℕ) (outA outB : List F32)
    (hsr : 0 < sr) (hlen : lut.length = 2 * sr)
    (hper : ∀ i, i + sr < lut.length → lut[i + sr]? = lut[i]?)
    (hbound : o % sr + outA.length + outB.length ≤ 2 * sr) :
    Oscillator.generate? (Oscillator.new lut sr) (outA ++ outB) o =
      (Oscillator.generate? (Oscillator.new lut sr) outA o).bind (fun first =>
        (Oscillator.generate? (Oscillator.new lut sr) outB (o + outA.length)).map
          (fun second => first ++ second)) := by
  have hsr' : sr ≠ 0 := hsr.ne'
  have hmod : o % sr < sr := Nat.mod_lt _ hsr
  have hmod2 : (o + outA.length) % sr < sr := Nat.mod_lt _ hsr
  rw [Oscillator.generate?_eq (Oscillator.new lut sr) (outA ++ outB) o hsr' (by
        simp only [Oscillator.new]; omega),
      Oscillator.generate?_eq (Oscillator.new lut sr) outA o hsr' (by
        simp only [Oscillator.new]; omega),
      Oscillator.generate?_eq (Oscillator.new lut sr) outB (o + outA.length) hsr' (by
        simp only [Oscillator.new]; omega)]
  simp only [Oscillator.new, Option.bind_some, Option.map_some]
  refine congrArg some ?_
  rw [addInto_append]
  refine congrArg (addInto outA (lut.drop (o % sr)) ++ ·) ?_
  rw [List.drop_drop]
  have hr2 : (o + outA.length) % sr = (o % sr + outA.length) % sr :=
    (Nat.mod_add_mod o sr outA.length).symm
  refine addInto_congr outB _ _ (fun j hj => ?_)
  rw [List.getElem?_drop, List.getElem?_drop, hr2]
  by_cases hcase : o % sr + outA.length < sr
  · rw [Nat.mod_eq_of_lt hcase]
  · have hle : sr ≤ o % sr + outA.length := by omega
    have hlt2 : o % sr + outA.length < 2 * sr := by omega
    have hsub : (o % sr + outA.length) % sr = o % sr + outA.length - sr := by
      rw [Nat.mod_eq_sub_mod hle, Nat.mod_eq_of_lt (by omega)]
    rw [hsub]
    have hidx : o % sr + outA.length - sr + j + sr = o % sr + outA.length + j := by
      omega
    have := hper (o % sr + outA.length - sr + j) (by omega)
    rw [hidx] at this
    exact this

/-- Witness for the amended C5 at a concrete input: a periodic four-entry
table with wrap length 2, offset 1, `N = 1`, `M = 2`. -/
theorem c5_split_invariance_witness :
    Oscillator.generate? (Oscillator.new [F32.fin 1, F32.fin 2, F32.fin 1, F32.fin 2] 2)
        ([F32.fin 0] ++ [F32.fin 0, F32.fin 0]) 1 =
      (Oscillator.generate? (Oscillator.new [F32.fin 1, F32.fin 2, F32.fin 1, F32.fin 2] 2)
          [F32.fin 0] 1).bind (fun first =>
        (Oscillator.generate? (Oscillator.new [F32.fin 1, F32.fin 2, F32.fin 1, F32.fin 2] 2)
            [F32.fin 0, F32.fin 0] (1 + ([F32.fin 0] : List F32).length)).map
          (fun second => first ++ second)) :=
  c5_split_invariance_amended [F32.fin 1, F32.fin 2, F32.fin 1, F32.fin 2] 2 1
    [F32.fin 0] [F32.fin 0, F32.fin 0] (by norm_num) (by norm_num)
    (by
      intro i hi
      simp only [List.length_cons, List.length_nil] at hi
      have h2 : i < 2 := by omega
      interval_cases i <;> rfl)
    (by norm_num)

theorem stepSample_advanceOk (e : Envelope) (st : State) (i : ℕ) (t : F32) :
    advanceOk st (e.stepSample st i t).2 = true := by
  cases st <;> simp only [Envelope.stepSample] <;> (try split) <;> simp [advanceOk]

theorem rank_le_of_advanceOk {s s' : State} (h : advanceOk s s' = true) :
    rank s ≤ rank s' := by
  cases s <;> cases s' <;> simp_all [advanceOk, rank]

theorem applyGo_rank (e : Envelope) (buf : List F32) :
    ∀ st i, rank st ≤ rank (e.applyGo st i buf).2 := by
  induction buf with
  | nil => intro st i; simp [Envelope.applyGo]
  | cons t ts ih =>
    intro st i
    calc rank st ≤ rank (e.stepSample st i t).2 :=
          rank_le_of_advanceOk (stepSample_advanceOk e st i t)
      _ ≤ rank (e.applyGo (e.stepSample st i t).2 (i + 1) ts).2 := ih _ _
      _ = rank (e.applyGo st i (t :: ts)).2 := rfl

theorem applyGo_done (e : Envelope) (i : ℕ) (buf : List F32) :
    e.applyGo State.Done i buf = (buf.map (fun _ => F32.fin 0), State.Done) := by
  induction buf generalizing i with
  | nil => rfl
  | cons t ts ih => simp [Envelope.applyGo, Envelope.stepSample, ih]

theorem Envelope.applyGo_length (e : Envelope) :
    ∀ (buf : List F32) (st : State) (i : ℕ), (e.applyGo st i buf).1.length = buf.length := by
  intro buf
  induction buf with
  | nil => intro st i; rfl
  | cons t ts ih => intro st i; simp [Envelope.applyGo, ih]

theorem Envelope.apply_fst_length (e : Envelope) (buf : List F32) (off : ℕ) :
    (e.apply buf off).1.length = buf.length :=
  Envelope.applyGo_length e buf e.state off

theorem Distortion.apply_map_length (pf : F32 → F32 → F32) (d : Distortion)
    (buf : List F32) (off : ℕ) : (d.apply pf buf off).length = buf.length := by
  simp [Distortion.apply]

theorem Oscillator.generate?_length {osc : Oscillator} {out : List F32} {offset : ℕ}
    {o1 : List F32} (h : osc.generate? out offset = some o1) : o1.length = out.length := by
  simp only [Oscillator.generate?] at h
  split at h
  · simp at h
  · split at h
    · have hx := Option.some.inj h
      rw [← hx]
      exact length_addInto _ _
    · simp at h

theorem map_const_zero (l : List F32) :
    l.map (fun _ => F32.fin 0) = List.replicate l.length (F32.fin 0) := by
  simp [List.map_const']

/-- C7: the envelope phase machine only ever advances in the order
Attack → Decay → Release → Done: every per-sample transition either stays in
the current phase or moves to the immediately following one, the phase rank
never decreases across an `apply` call (hence across any sequence of calls),
and once the state is `Done` it stays `Done` with every processed sample
forced to `0.0`. -/
theorem c7_envelope_phase_order (e : Envelope) (buffer : List F32) (offset : ℕ) :
    (∀ st i t, advanceOk st (e.stepSample st i t).2 = true) ∧
    rank e.state ≤ rank (e.apply buffer offset).2 ∧
    (e.state = State.Done →
      e.apply buffer offset = (buffer.map (fun _ => F32.fin 0), State.Done)) := by
  refine ⟨fun st i t => stepSample_advanceOk e st i t,
    applyGo_rank e buffer e.state offset, ?_⟩
  intro hd
  unfold Envelope.apply
  rw [hd]
  exact applyGo_done e offset buffer

/-- Witness for C7 at a concrete input: an envelope already in `Done` zeroes
the processed buffer and stays in `Done`. -/
theorem c7_envelope_phase_order_witness :
    Envelope.apply
        { attack_slope := F32.fin 1, decay_slope := F32.fin 1
          sustain_height := F32.fin 1, release_slope := F32.fin 1
          state := State.Done } [F32.fin 5] 0 = ([F32.fin 0], State.Done) := by
  have h := (c7_envelope_phase_order
    { attack_slope := F32.fin 1, decay_slope := F32.fin 1
      sustain_height := F32.fin 1, release_slope := F32.fin 1
      state := State.Done } [F32.fin 5] 0).2.2 rfl
  simpa using h

/-- C9: every completed `Generator::run` call advances the running offset by
exactly the buffer length — also when the envelope has already reached
`Done` — and modifies no field other than the offset, the envelope state and
the finished flag (volume, oscillator, distortion and the four envelope
slope parameters are preserved). -/
theorem c9_generator_offset_advance (pf : F32 → F32 → F32) (g : Generator)
    (out : List F32) (g' : Generator) (out' : List F32)
    (h : Generator.run pf g out = some (g', out')) :
    g'.offset = g.offset + out.length ∧
    g'.volume = g.volume ∧
    g'.oscillator = g.oscillator ∧
    g'.distortion = g.distortion ∧
    g'.envelope.attack_slope = g.envelope.attack_slope ∧
    g'.envelope.decay_slope = g.envelope.decay_slope ∧
    g'.envelope.sustain_height = g.envelope.sustain_height ∧
    g'.envelope.release_slope = g.envelope.release_slope := by
  unfold Generator.run at h
  cases hosc : g.oscillator.generate? out g.offset with
  | none => rw [hosc] at h; simp at h
  | some out1 =>
    rw [hosc] at h
    simp only [Option.some.injEq, Prod.mk.injEq] at h
    obtain ⟨hg, hout⟩ := h
    have hlen1 : out1.length = out.length := Oscillator.generate?_length hosc
    subst hg
    refine ⟨?_, by simp, by simp, by simp, by simp, by simp, by simp, by simp⟩
    simp only
    congr 1
    subst hout
    cases hdist : g.distortion with
    | none =>
      by_cases hv : F32.fne g.volume (F32.fin 1) = true <;>
        simp [hv, Envelope.apply_fst_length, hlen1]
    | some d =>
      by_cases hv : F32.fne g.volume (F32.fin 1) = true <;>
        simp [hv, Distortion.apply_map_length, Envelope.apply_fst_length, hlen1]

/-- Witness for C9 at a concrete input: a one-sample run on a fresh
generator advances the offset from 0 to 1 and leaves every other field of
the record unchanged apart from the envelope state and finished flag. -/
theorem c9_generator_offset_advance_witness :
    Generator.run powfModel generatorW [F32.fin 0] =
      some ({ generatorW with offset := 1 }, [F32.fin 0]) ∧
    ({ generatorW with offset := 1 } : Generator).offset =
      generatorW.offset + ([F32.fin 0] : List F32).length := by
  have hrun : Generator.run powfModel generatorW [F32.fin 0] =
      some ({ generatorW with offset := 1 }, [F32.fin 0]) := by
    norm_num [generatorW, Generator.run, Oscillator.generate?, addInto,
      Envelope.apply, Envelope.applyGo, Envelope.stepSample,
      F32.mul, F32.add, F32.ofNat, F32.ge, F32.le, F32.fne]
    decide
  exact ⟨hrun, (c9_generator_offset_advance powfModel generatorW [F32.fin 0]
    ({ generatorW with offset := 1 }) [F32.fin 0] hrun).1⟩

/-- C6: every `fill` call first zeroes the output buffer (the result depends
only on the buffer's length, not its previous contents); with an empty voice
pool the result is an all-zero buffer of the requested length and the mixer
is unchanged; otherwise the output is the shared-buffer run of all voices
multiplied samplewise by `1/n`, where `n` is the number of voices counted at
the start of the call, before finished voices are removed. -/
theorem c6_mixer_normalization (pf : F32 → F32 → F32) (m : Mixer) (out : List F32) :
    (∀ out2 : List F32, out.length = out2.length →
      Mixer.generate pf m out = Mixer.generate pf m out2) ∧
    (m.generators = [] →
      Mixer.generate pf m out = some (m, List.replicate out.length (F32.fin 0))) ∧
    (∀ m' out', Mixer.generate pf m out = some (m', out') → m.generators ≠ [] →
      ∃ gens buf,
        runVoices pf m.generators (List.replicate out.length (F32.fin 0)) =
          some (gens, buf) ∧
        out' = buf.map (fun tone =>
          F32.mul tone (F32.div (F32.fin 1) (F32.ofNat m.generators.length))) ∧
        m'.generators = gens.filter (fun g => ! g.finished)) := by
  refine ⟨?_, ?_, ?_⟩
  · intro out2 h12
    simp only [Mixer.generate]
    rw [map_const_zero, map_const_zero, h12]
  · intro hgen
    simp [Mixer.generate, hgen]
  · intro m' out' h hne
    have hlen : m.generators.length ≠ 0 := by simpa using hne
    simp only [Mixer.generate] at h
    rw [map_const_zero, if_neg hlen] at h
    cases hrv : runVoices pf m.generators (List.replicate out.length (F32.fin 0)) with
    | none => rw [hrv] at h; simp at h
    | some p =>
      obtain ⟨gens, buf⟩ := p
      rw [hrv] at h
      simp only [Option.some.injEq, Prod.mk.injEq] at h
      obtain ⟨hm, hout⟩ := h
      exact ⟨gens, buf, rfl, hout.symm, by rw [← hm]⟩

/-- Witness for C6 at a concrete input: with zero voices, filling a
one-sample buffer whose previous content is `7` yields the all-zero buffer
of length 1 and the unchanged mixer. -/
theorem c6_mixer_normalization_witness :
    Mixer.generate powfModel Mixer.default [F32.fin 7] =
      some (Mixer.default, List.replicate 1 (F32.fin 0)) := by
  have h := (c6_mixer_normalization powfModel Mixer.default [F32.fin 7]).2.1 rfl
  simpa using h

theorem fract_nonneg_lt (x : ℚ) (hx : 0 ≤ x) :
    0 ≤ x - F32.ratTrunc x ∧ x - F32.ratTrunc x < 1 := by
  have htr : (F32.ratTrunc x : ℚ) = (⌊x⌋ : ℤ) := by
    simp [F32.ratTrunc, not_lt.mpr hx]
  rw [htr]
  have h1 := Int.fract_nonneg x
  have h2 := Int.fract_lt_one x
  unfold Int.fract at h1 h2
  exact ⟨h1, h2⟩

theorem f32_closed_neg_pos_bounds (u : ℕ) :
    -1 ≤ f32_closed_neg_pos u ∧ f32_closed_neg_pos u ≤ 1 := by
  unfold f32_closed_neg_pos
  have h1 : (0:ℚ) ≤ ((u % 4294967296 : ℕ) : ℚ) := Nat.cast_nonneg _
  have h2 : ((u % 4294967296 : ℕ) : ℚ) ≤ 4294967295 := by
    have h3 : u % 4294967296 ≤ 4294967295 := by
      have := Nat.mod_lt u (show 0 < 4294967296 by norm_num)
      omega
    exact_mod_cast h3
  constructor
  · have h4 : (0:ℚ) ≤ ((u % 4294967296 : ℕ) : ℚ) * 2 / 4294967295 := by positivity
    linarith
  · have h4 : ((u % 4294967296 : ℕ) : ℚ) * 2 / 4294967295 ≤ 2 := by
      rw [div_le_iff₀ (show (0:ℚ) < 4294967295 by norm_num)]
      linarith
    linarith

/-- C8: for every waveform kind, frequency, duty cycle and sample rate, the
built lookup table has exactly `2 * sample_rate` entries and every entry is a
finite value in the closed interval `[-1, 1]` (assuming the abstract sine
model maps finite arguments into `[-1, 1]`, as `f32::sin` does). -/
theorem c8_table_length_and_bounds (sin_f : F32 → F32) (rng : ℕ → ℕ)
    (t : OscillatorType) (frequency : ℕ) (duty_cycle : DutyCycle)
    (sample_rate : ℕ)
    (hsin : ∀ q : ℚ, ∃ r : ℚ, sin_f (F32.fin q) = F32.fin r ∧ -1 ≤ r ∧ r ≤ 1) :
    (OscillatorType.build_lut sin_f rng t frequency duty_cycle sample_rate).length =
      2 * sample_rate ∧
    ∀ e ∈ OscillatorType.build_lut sin_f rng t frequency duty_cycle sample_rate,
      ∃ q : ℚ, e = F32.fin q ∧ -1 ≤ q ∧ q ≤ 1 := by
  constructor
  · cases t <;> simp [OscillatorType.build_lut, Nat.mul_comm sample_rate 2]
  · intro e he
    cases t with
    | Sine =>
      simp only [OscillatorType.build_lut, List.mem_map, List.mem_range] at he
      obtain ⟨i, hi, hE⟩ := he
      have hsrQ : ((sample_rate : ℚ)) ≠ 0 := by
        have : 0 < sample_rate := by omega
        exact_mod_cast this.ne'
      have harg : F32.mul (F32.ofNat i)
          (F32.div (F32.mul (F32.ofNat frequency) (F32.fin PI2)) (F32.ofNat sample_rate)) =
          F32.fin ((i : ℚ) * ((frequency : ℚ) * PI2 / (sample_rate : ℚ))) := by
        simp [F32.ofNat, F32.mul, F32.div, hsrQ]
      obtain ⟨r, hr, hr1, hr2⟩ := hsin ((i : ℚ) * ((frequency : ℚ) * PI2 / (sample_rate : ℚ)))
      exact ⟨r, by rw [← hE, harg, hr], hr1, hr2⟩
    | Saw =>
      simp only [OscillatorType.build_lut, List.mem_map, List.mem_range] at he
      obtain ⟨i, hi, hE⟩ := he
      have hsrQ : ((sample_rate : ℚ)) ≠ 0 := by
        have : 0 < sample_rate := by omega
        exact_mod_cast this.ne'
      have hx0 : (0:ℚ) ≤ (i : ℚ) / (sample_rate : ℚ) * (frequency : ℚ) := by positivity
      obtain ⟨hf0, hf1⟩ := fract_nonneg_lt _ hx0
      refine ⟨1 - ((i : ℚ) / (sample_rate : ℚ) * (frequency : ℚ) -
        F32.ratTrunc ((i : ℚ) / (sample_rate : ℚ) * (frequency : ℚ))) * 2,
        ?_, by linarith, by linarith⟩
      rw [← hE]
      simp [F32.ofNat, F32.div, hsrQ, F32.mul, F32.fmod1, F32.sub]
    | Triangle =>
      simp only [OscillatorType.build_lut, List.mem_map, List.mem_range] at he
      obtain ⟨i, hi, hE⟩ := he
      have hsrQ : ((sample_rate : ℚ)) ≠ 0 := by
        have : 0 < sample_rate := by omega
        exact_mod_cast this.ne'
      have hx0 : (0:ℚ) ≤ (i : ℚ) / (sample_rate : ℚ) * (frequency : ℚ) := by positivity
      obtain ⟨hf0, hf1⟩ := fract_nonneg_lt _ hx0
      rw [← hE]
      simp only [F32.ofNat, F32.div, hsrQ, if_neg hsrQ, F32.mul, F32.fmod1]
      by_cases hs : ((i : ℚ) / (sample_rate : ℚ) * (frequency : ℚ) -
          F32.ratTrunc ((i : ℚ) / (sample_rate : ℚ) * (frequency : ℚ))) * 2 < 1
      · refine ⟨-1 + ((i : ℚ) / (sample_rate : ℚ) * (frequency : ℚ) -
          F32.ratTrunc ((i : ℚ) / (sample_rate : ℚ) * (frequency : ℚ))) * 2 * 2,
          ?_, by linarith, by linarith⟩
        simp [F32.lt, F32.mul, F32.add, hs]
      · refine ⟨3 - ((i : ℚ) / (sample_rate : ℚ) * (frequency : ℚ) -
          F32.ratTrunc ((i : ℚ) / (sample_rate : ℚ) * (frequency : ℚ))) * 2 * 2,
          ?_, by push_neg at hs; linarith, by push_neg at hs; linarith⟩
        simp [F32.lt, F32.mul, F32.sub, hs]
    | Square =>
      simp only [OscillatorType.build_lut, List.mem_map, List.mem_range] at he
      obtain ⟨i, hi, hE⟩ := he
      rw [← hE]
      by_cases hs : F32.lt
          (F32.fmod1 (F32.mul (F32.div (F32.ofNat i) (F32.ofNat sample_rate))
            (F32.ofNat frequency)))
          (F32.fin duty_cycle.to_frac) = true
      · exact ⟨1, by simp [hs], by norm_num, by norm_num⟩
      · exact ⟨-1, by simp [hs], by norm_num, by norm_num⟩
    | Noise =>
      simp only [OscillatorType.build_lut, List.mem_map, List.mem_range] at he
      obtain ⟨i, hi, hE⟩ := he
      obtain ⟨h1, h2⟩ := f32_closed_neg_pos_bounds (rng i)
      exact ⟨f32_closed_neg_pos (rng i), hE.symm, h1, h2⟩

/-- Witness for C8 at a concrete input: the sine table at frequency 1, duty
cycle 1/2 and sample rate 1 (with the trivial sine model) has two entries. -/
theorem c8_table_length_and_bounds_witness :
    (OscillatorType.build_lut sinZero rngZero OscillatorType.Sine 1 DutyCycle.Half 1).length =
      2 * 1 :=
  (c8_table_length_and_bounds sinZero rngZero OscillatorType.Sine 1 DutyCycle.Half 1
    (fun q => ⟨0, rfl, by norm_num, by norm_num⟩)).1

theorem F32.mul_fin (a b : ℚ) : F32.mul (F32.fin a) (F32.fin b) = F32.fin (a * b) := rfl

theorem F32.sub_fin (a b : ℚ) : F32.sub (F32.fin a) (F32.fin b) = F32.fin (a - b) := rfl

theorem F32.fmax_fin (a b : ℚ) : F32.fmax (F32.fin a) (F32.fin b) = F32.fin (max a b) := rfl

theorem F32.signum_fin_zero : F32.signum (F32.fin 0) = F32.fin 1 := by
  norm_num [F32.signum]

/-- C3 counterexample: for the envelope built with `attack = 0` the attack
slope is `1.0 / 0.0 / 44100.0 = +inf`, so the very first evaluated sample
(absolute index 0) computes the gain `0.0 * inf = NaN`; `NaN >= 1.0` is
false, hence after processing that first sample the state is still `Attack`
(not out of `Attack` as the claim states) and the sample itself becomes
`NaN` rather than being scaled by a gain `>= 1.0`. -/
theorem c3_attack_zero_counterexample :
    (Envelope.new (F32.fin 44100) (F32.fin 0) (F32.fin (1/10)) (F32.fin (1/2))
        (F32.fin (1/2))).apply [F32.fin 1] 0 = ([F32.nan], State.Attack) := by
  norm_num [Envelope.new, Envelope.apply, Envelope.applyGo, Envelope.stepSample,
    F32.mul, F32.div, F32.ofNat, F32.ge, F32.le]

/-- C3 amended: with `attack = 0` the first evaluated sample's gain is
`0 * inf = NaN` (its output is `NaN`, the state stays in `Attack`), and the
attack phase completes at the second evaluated sample, absolute index 1,
whose gain is `+inf >= 1.0`, moving the state to `Decay 1` — for every
decay/sustain/release parameter and any two input samples. -/
theorem c3_attack_zero_amended (d s r x y : ℚ) :
    (Envelope.new (F32.fin 44100) (F32.fin 0) (F32.fin d) (F32.fin s)
        (F32.fin r)).apply [F32.fin x, F32.fin y] 0 =
      ([F32.nan, F32.mul (F32.fin y) F32.inf], State.Decay 1) := by
  norm_num [Envelope.new, Envelope.apply, Envelope.applyGo, Envelope.stepSample,
    F32.mul, F32.div, F32.ofNat, F32.ge, F32.le]

/-- C4 counterexample: with `crunch = 1` the stored exponent is
`1 - max(1, 0.01) = 0`, and IEEE-754 `powf(0, 0) = 1`, so an all-zero buffer
is mapped to all ones, not zeros. -/
theorem c4_distortion_zero_counterexample :
    (Distortion.new (F32.fin 1) (F32.fin 1)).apply powfModel [F32.fin 0, F32.fin 0] 0 ≠
      [F32.fin 0, F32.fin 0] := by
  norm_num [Distortion.new, Distortion.apply, powfModel, F32.mul, F32.fmax, F32.sub,
    F32.signum]

/-- C4 amended: for every `crunch < 1` (so the stored exponent
`1 - max(crunch, 0.01)` is strictly positive) and every drive, applying the
distortion to an all-zero buffer returns the all-zero buffer, for any `powf`
model that satisfies the IEEE-754 rule `powf(0, e) = 0` for `e > 0`. -/
theorem c4_distortion_zero_amended (pf : F32 → F32 → F32) (crunch drive : ℚ)
    (buffer : List F32) (offset : ℕ)
    (hpf : ∀ e : ℚ, 0 < e → pf (F32.fin 0) (F32.fin e) = F32.fin 0)
    (hc : crunch < 1)
    (hbuf : ∀ v ∈ buffer, v = F32.fin 0) :
    (Distortion.new (F32.fin crunch) (F32.fin drive)).apply pf buffer offset =
      buffer.map (fun _ => F32.fin 0) := by
  have hexp : (0:ℚ) < 1 - max crunch (1/100) := by
    have := max_lt hc (show (1:ℚ)/100 < 1 by norm_num)
    linarith
  unfold Distortion.apply
  refine List.map_congr_left (fun v hv => ?_)
  rw [hbuf v hv]
  simp only [Distortion.new, F32.mul_fin, F32.fmax_fin, F32.sub_fin, zero_mul,
    F32.signum_fin_zero, mul_one]
  rw [hpf _ hexp]
  simp [F32.mul_fin]

/-- Witness for the amended C4 at a concrete input: `crunch = 1/2`,
`drive = 3`, one zero sample. -/
theorem c4_distortion_zero_witness :
    ((1:ℚ)/2 < 1) ∧
    (Distortion.new (F32.fin (1/2)) (F32.fin 3)).apply powfModel [F32.fin 0] 0 =
      [F32.fin 0] := by
  refine ⟨by norm_num, ?_⟩
  have h := c4_distortion_zero_amended powfModel (1/2) 3 [F32.fin 0] 0
    (fun e he => by norm_num [powfModel, he, he.ne'])
    (by norm_num) (by simp)
  simpa using h

/-- C2: the cache key of `Mixer::oscillator_buffer` is
`(frequency, oscillator_type)` and omits the duty cycle, so after a Square
voice at frequency 1 and duty cycle 1/8 populates the cache, resolving a
Square voice at the same frequency but duty cycle 1/2 silently returns the
1/8-duty table — which differs from the table that `build_lut` produces for
duty cycle 1/2. -/
theorem c2_cache_key_ignores_duty_cycle :
    ((mixer8.oscillator_buffer sinZero rngZero 1 OscillatorType.Square
        DutyCycle.Eight).2.oscillator_buffer sinZero rngZero 1 OscillatorType.Square
        DutyCycle.Half).1 =
      OscillatorType.build_lut sinZero rngZero OscillatorType.Square 1 DutyCycle.Eight 8 ∧
    OscillatorType.build_lut sinZero rngZero OscillatorType.Square 1 DutyCycle.Eight 8 ≠
      OscillatorType.build_lut sinZero rngZero OscillatorType.Square 1 DutyCycle.Half 8 := by
  constructor
  · norm_num [mixer8, Mixer.oscillator_buffer, lookupTable, OscillatorType.build_lut,
      sinZero, rngZero, List.range_succ, DutyCycle.to_frac, F32.mul, F32.div, F32.ofNat,
      F32.fmod1, F32.ratTrunc, F32.lt]
  · norm_num [OscillatorType.build_lut, sinZero, rngZero, List.range_succ,
      DutyCycle.to_frac, F32.mul, F32.div, F32.ofNat, F32.fmod1, F32.ratTrunc, F32.lt]

/-- C1: two identical-parameter voices do not mix to the single-voice
rendering, because each voice's envelope and volume are applied to the
shared output buffer (which already holds the previous voice's shaped
samples), not to a private per-voice buffer.  With the `sampleShared` voice
(saw, frequency 1, volume 1/2, one-sample attack, sample rate 4) a two-sample
fill yields `[0, 1/4]` for one voice but `[0, 3/16]` for two identical
voices, instead of the unchanged `[0, 1/4]`. -/
theorem c1_shared_buffer_not_private :
    (Mixer.generate powfModel mixerOne [F32.fin 0, F32.fin 0]).map Prod.snd =
      some [F32.fin 0, F32.fin (1/4)] ∧
    (Mixer.generate powfModel mixerTwo [F32.fin 0, F32.fin 0]).map Prod.snd =
      some [F32.fin 0, F32.fin (3/16)] ∧
    (some [F32.fin 0, F32.fin (3/16)] : Option (List F32)) ≠
      some [F32.fin 0, F32.fin (1/4)] := by
  refine ⟨?_, ?_, by norm_num⟩
  · norm_num [mixerOne, sampleShared, Mixer.new, Mixer.default, Mixer.play,
      Mixer.generate, Mixer.oscillator_buffer, lookupTable, OscillatorType.build_lut,
      sinZero, rngZero, Oscillator.new, Envelope.new, runVoices, Generator.run,
      Oscillator.generate?, Envelope.apply, Envelope.applyGo, Envelope.stepSample,
      addInto, List.range_succ, F32.mul, F32.div, F32.add, F32.sub, F32.ofNat,
      F32.ge, F32.le, F32.fne, F32.fmod1, F32.ratTrunc]
  · norm_num [mixerOne, mixerTwo, sampleShared, Mixer.new, Mixer.default, Mixer.play,
      Mixer.generate, Mixer.oscillator_buffer, lookupTable, OscillatorType.build_lut,
      sinZero, rngZero, Oscillator.new, Envelope.new, runVoices, Generator.run,
      Oscillator.generate?, Envelope.apply, Envelope.applyGo, Envelope.stepSample,
      addInto, List.range_succ, F32.mul, F32.div, F32.add, F32.sub, F32.ofNat,
      F32.ge, F32.le, F32.fne, F32.fmod1, F32.ratTrunc]

end Usfx
